import Mathlib

/-!
Shallow embedding of the `follow-redirects` crate (a redirect-following
decorator for a `hyper` HTTP client).  The embedding follows the source
files `src/machine.rs`, `src/uri.rs`, `src/future.rs`, `src/buffer.rs`
and `src/error.rs`.  Request/response/URI representations are the
external `http`/`hyper` types; they are modelled here by concrete
structures faithful to those libraries on the inputs that appear in the
development (URI splitting at the first `://`, authority up to the first
`/`/`?`/`#`, literal host/port components, case-insensitive header
names).
-/

deriving instance DecidableEq for Except

namespace FollowRedirects

/-- HTTP method token (`hyper::Method`). -/
inductive Method where
  | GET
  | POST
  | PUT
  | DELETE
  | HEAD
  | PATCH
  | Extension (s : String)
deriving DecidableEq

/-- HTTP protocol version (`hyper::HttpVersion`). -/
inductive HttpVersion where
  | Http10
  | Http11
  | H2
deriving DecidableEq

/-- The status codes distinguished by `StateMachine::handle_response`;
every other status is collapsed into `Other` with its numeric code. -/
inductive StatusCode where
  | MovedPermanently
  | Found
  | SeeOther
  | TemporaryRedirect
  | PermanentRedirect
  | Other (code : Nat)
deriving DecidableEq

/-- Whether a status is one of the five redirect statuses the state
machine follows (used in claim statements only). -/
def StatusCode.isRedirect : StatusCode → Bool
  | .MovedPermanently => true
  | .Found => true
  | .SeeOther => true
  | .TemporaryRedirect => true
  | .PermanentRedirect => true
  | .Other _ => false

/-- A body chunk / buffered body: a byte sequence (`bytes::Bytes`). -/
abbrev Bytes := List UInt8

/-- ASCII lower-casing of one character, for case-insensitive header
name comparison (hyper header names are matched case-insensitively). -/
def asciiLower (c : Char) : Char :=
  if 'A' ≤ c ∧ c ≤ 'Z' then Char.ofNat (c.toNat + 32) else c

/-- Case-insensitive (ASCII) header-name normalisation. -/
def lowerName (s : String) : String :=
  String.mk (s.data.map asciiLower)

/-- Header multimap (`hyper::Headers`): ordered list of name/value
pairs, names compared case-insensitively. -/
structure Headers where
  entries : List (String × String)
deriving DecidableEq

/-- `Headers::get::<H>()`: the first value carried under the given
name, compared case-insensitively. -/
def Headers.get (h : Headers) (name : String) : Option String :=
  (h.entries.find? (fun e => lowerName e.1 == lowerName name)).map (fun e => e.2)

/-- `res.headers().get::<hyper::header::Location>()`. -/
def Headers.getLocation (h : Headers) : Option String :=
  h.get "Location"

/-- Whether a header with the given (case-insensitive) name is present. -/
def Headers.contains (h : Headers) (name : String) : Bool :=
  (h.get name).isSome

/-- An HTTP response as the state machine observes it: status code and
headers (`hyper::Response`). -/
structure Response where
  status : StatusCode
  headers : Headers
deriving DecidableEq

/-- An HTTP request as materialized for the transport
(`hyper::Request`); `hyper 0.11`'s `Request::new` starts with an empty
body, so `body` here is the actual byte sequence sent. -/
structure Request where
  method : Method
  uri : String
  version : HttpVersion
  headers : Headers
  body : Bytes
deriving DecidableEq

/-! ### URI model (`http::uri::Parts`, the black-box `http::Uri` parser)

`http::Uri` splits an absolute URI at the first `://` into scheme,
authority (up to the first `/`, `?` or `#`) and path-and-query; an
origin-form reference starts with `/` and has neither scheme nor
authority; anything else without `://` and without path characters is
an authority-form reference.  Strings containing spaces, and empty
strings, fail to parse. -/

/-- `http::uri::Parts`: the three components of a URI reference. -/
structure UriParts where
  scheme : Option String
  authority : Option String
  pathAndQuery : Option String
deriving DecidableEq

/-- Split a character list at the first occurrence of `://`, returning
the part before and the part after. -/
def splitAtSchemeSep : List Char → Option (List Char × List Char)
  | [] => none
  | c :: cs =>
    if c = ':' ∧ cs.take 2 = ['/', '/'] then some ([], cs.drop 2)
    else
      match splitAtSchemeSep cs with
      | some (pre, post) => some (c :: pre, post)
      | none => none

/-- A character that may not appear in a scheme. -/
def schemeBadChar (c : Char) : Bool :=
  c == '/' || c == ':' || c == '?' || c == '#'

/-- A character that terminates the authority component. -/
def authorityEndChar (c : Char) : Bool :=
  c == '/' || c == '?' || c == '#'

/-- Parse an absolute URI once split at `://`: non-empty clean scheme,
non-empty authority up to the first `/`/`?`/`#`, the rest as
path-and-query (`/` when empty, as `http::Uri` renders it). -/
def parseWithScheme (schemeCs rest : List Char) : Option UriParts :=
  if schemeCs.isEmpty then none
  else if schemeCs.any schemeBadChar then none
  else
    let authCs := rest.takeWhile (fun c => !authorityEndChar c)
    let pqCs := rest.dropWhile (fun c => !authorityEndChar c)
    if authCs.isEmpty then none
    else
      some ⟨some (String.mk schemeCs), some (String.mk authCs),
            some (if pqCs.isEmpty then "/" else String.mk pqCs)⟩

/-- Parse a URI reference without `://`: origin-form when it starts
with `/`, otherwise authority-form. -/
def parseNoScheme (cs : List Char) : Option UriParts :=
  match cs with
  | '/' :: _ => some ⟨none, none, some (String.mk cs)⟩
  | _ =>
    if cs.any authorityEndChar then none
    else some ⟨none, some (String.mk cs), none⟩

/-- The `http::Uri` parser, modelled on character lists. -/
def parseUriChars (cs : List Char) : Option UriParts :=
  if cs.isEmpty then none
  else if cs.any (fun c => c == ' ') then none
  else
    match splitAtSchemeSep cs with
    | some (schemeCs, rest) => parseWithScheme schemeCs rest
    | none => parseNoScheme cs

/-- `s.parse::<http::Uri>()` (also used for `hyper::Uri`, which wraps
the same grammar). -/
def parseUri (s : String) : Option UriParts :=
  parseUriChars s.data

/-- Serialization of a URI (`Uri::to_string` / `Display`). -/
def UriParts.toStr (u : UriParts) : String :=
  (match u.scheme with | some s => s ++ "://" | none => "") ++
  (match u.authority with | some a => a | none => "") ++
  (match u.pathAndQuery with | some p => p | none => "")

/-- `http::Uri::from_parts`: a scheme requires an authority and a
path-and-query part (the only failure mode relevant here, as noted in
the comment in `src/uri.rs`). -/
def uriFromParts (p : UriParts) : Option UriParts :=
  if p.scheme.isSome then
    if p.authority.isNone then none
    else if p.pathAndQuery.isNone then none
    else some p
  else some p

/-- The host/port segment of an authority: everything after the last
`@` (userinfo is not part of the host). -/
def hostPortChars (auth : List Char) : List Char :=
  ((auth.reverse.takeWhile (fun c => c != '@'))).reverse

/-- Split the host/port segment into host and an optional literal
port: a trailing `:` followed by one or more digits is the port. -/
def splitPort (hp : List Char) : List Char × Option (List Char) :=
  let rev := hp.reverse
  let ds := rev.takeWhile (fun c => c.isDigit)
  let rest := rev.dropWhile (fun c => c.isDigit)
  match rest with
  | ':' :: before =>
    if ds.isEmpty then (hp, none) else (before.reverse, some ds.reverse)
  | _ => (hp, none)

/-- Decimal digits to a number. -/
def natOfDigits (ds : List Char) : Nat :=
  ds.foldl (fun n c => n * 10 + (c.toNat - 48)) 0

/-- `Uri::host()`: the host component, when an authority is present. -/
def UriParts.host (u : UriParts) : Option String :=
  u.authority.map (fun a => String.mk (splitPort (hostPortChars a.data)).1)

/-- `Uri::port()`: the literal port component, when one is written in
the authority (no default-port normalisation). -/
def UriParts.port (u : UriParts) : Option Nat :=
  u.authority.bind (fun a => (splitPort (hostPortChars a.data)).2.map natOfDigits)

/-! ### Errors (`src/error.rs`, plus the `hyper`-level errors that
`machine.rs` produces) -/

/-- The errors `StateMachine::follow_redirect` can produce: an
`io::Error` wrapping a `http::Uri` parse/recombination failure, or a
`hyper::Uri` parse failure — both are `hyper::Error` values. -/
inductive HyperError where
  | io (msg : String)
  | uri (msg : String)
deriving DecidableEq

/-- The crate's public error type (`src/error.rs`). -/
inductive Error where
  | Hyper (e : HyperError)
  | Http (msg : String)
  | Request (msg : String)
  | InvalidLocationHeader (raw : String)
deriving DecidableEq

/-! ### `UriExt` (`src/uri.rs`) -/

/-- `UriExt::compute_redirect`: resolve a `Location` header value
against the current URI (scheme/authority inherited when absent,
path and query taken verbatim). -/
def compute_redirect (self : UriParts) (location : String) : Except Error UriParts :=
  match parseUri location with
  | none => .error (.InvalidLocationHeader location)
  | some new_uri =>
    let old_parts := self
    let new_parts : UriParts :=
      { scheme := if new_uri.scheme.isNone then old_parts.scheme else new_uri.scheme
        authority := if new_uri.authority.isNone then old_parts.authority else new_uri.authority
        pathAndQuery := new_uri.pathAndQuery }
    match uriFromParts new_parts with
    | none => .error (.InvalidLocationHeader location)
    | some absolute_new_uri => .ok absolute_new_uri

/-- `UriExt::is_same_host`: literal equality of host and port. -/
def is_same_host (self other : UriParts) : Bool :=
  self.host == other.host && self.port == other.port

/-! ### The redirect state machine (`src/machine.rs`) -/

/-- The state owned by `StateMachine` (`src/machine.rs`): the in-flight
logical request.  `uri` is a `hyper::Uri`, which carries the URI as its
source string (`self.uri.as_ref()` yields that string). -/
structure StateMachine where
  method : Method
  uri : String
  version : HttpVersion
  headers : Headers
  body : Option Bytes
  remaining_redirects : Nat
deriving DecidableEq

/-- `StateMachineDecision`. -/
inductive StateMachineDecision where
  | Continue
  | Return
deriving DecidableEq

/-- `StateMachine::new`: captures method/uri/version, takes the
request's headers by move, `body = None`,
`remaining_redirects = max_redirects`. -/
def StateMachine.new (req : Request) (max_redirects : Nat) : StateMachine :=
  { method := req.method
    uri := req.uri
    version := req.version
    headers := req.headers
    body := none
    remaining_redirects := max_redirects }

/-- `StateMachine::set_body`. -/
def StateMachine.set_body (st : StateMachine) (body : Option Bytes) : StateMachine :=
  { st with body := body }

/-- `StateMachine::create_request`: materialize a wire request from the
current state.  `Request::new` starts with an empty body; `set_body` is
called only when a buffered body is present. -/
def StateMachine.create_request (st : StateMachine) : Request :=
  { method := st.method
    uri := st.uri
    version := st.version
    headers := st.headers
    body := match st.body with | some bytes => bytes | none => [] }

/-- `StateMachine::follow_redirect` (`src/machine.rs` lines 68–98):
check the budget, decrement it, read the `Location` header, parse it
and the current URI as `http::Uri`s, inherit missing scheme/authority
from the old parts, recombine with `Uri::from_parts`, re-parse the
serialization as a `hyper::Uri` and store it.  Parse failures are
wrapped as `io::Error`s (which convert to `hyper::Error`); the final
`hyper::Uri` parse failure is a `hyper::Error` directly. -/
def StateMachine.follow_redirect (st : StateMachine) (res : Response) :
    Except HyperError (StateMachine × StateMachineDecision) :=
  if st.remaining_redirects = 0 then
    .ok (st, .Return)
  else
    let st := { st with remaining_redirects := st.remaining_redirects - 1 }
    match res.headers.getLocation with
    | none => .ok (st, .Return)
    | some location =>
      match parseUri location with
      | none => .error (.io location)
      | some new_uri =>
        match parseUri st.uri with
        | none => .error (.io st.uri)
        | some old_uri =>
          let old_parts := old_uri
          let new_parts : UriParts :=
            { scheme := if new_uri.scheme.isNone then old_parts.scheme else new_uri.scheme
              authority := if new_uri.authority.isNone then old_parts.authority else new_uri.authority
              pathAndQuery := new_uri.pathAndQuery }
          match uriFromParts new_parts with
          | none => .error (.io (UriParts.toStr new_parts))
          | some absolute_new_uri =>
            match parseUri absolute_new_uri.toStr with
            | none => .error (.uri absolute_new_uri.toStr)
            | some _ => .ok ({ st with uri := absolute_new_uri.toStr }, .Continue)

/-- `StateMachine::handle_response` (`src/machine.rs` lines 48–66):
per-status dispatch; `303 See Other` forces `method = GET` and drops
the buffered body before attempting the redirect. -/
def StateMachine.handle_response (st : StateMachine) (res : Response) :
    Except HyperError (StateMachine × StateMachineDecision) :=
  match res.status with
  | .MovedPermanently => st.follow_redirect res
  | .PermanentRedirect => st.follow_redirect res
  | .Found => st.follow_redirect res
  | .TemporaryRedirect => st.follow_redirect res
  | .SeeOther =>
    StateMachine.follow_redirect { st with method := .GET, body := none } res
  | .Other _ => .ok (st, .Return)

/-! ### The orchestrator (`src/future.rs`)

`FutureInner` buffers the body, then loops `request → redirect`:
each `Continue` decision re-materializes and re-sends, each `Return`
yields the response.  The transport is modelled as an oracle list of
responses, one per send, so the number of consumed responses is the
number of sends performed.  `runResponses` returns the send count and
the final response, `none` when the oracle list runs out with the
machine still continuing (outside the model), and the crate-level
error when `handle_response` fails (the `?` in `FutureInner::redirect`
converts `hyper::Error` into `Error::Hyper`). -/

/-- Drive the state machine over an oracle list of responses; each
consumed response corresponds to one send by `FutureInner::request`. -/
def runResponses (st : StateMachine) : List Response → Except Error (Option (Nat × Response))
  | [] => .ok none
  | r :: rs =>
    match st.handle_response r with
    | .error e => .error (.Hyper e)
    | .ok (_, .Return) => .ok (some (1, r))
    | .ok (st', .Continue) =>
      match runResponses st' rs with
      | .ok (some (n, fin)) => .ok (some (n + 1, fin))
      | other => other

/-- The whole exchange (`FutureInner`, from the `Lazy` state): build
the state machine from the request, buffer the body, set it, then loop
over the transport oracle. -/
def runExchange (req : Request) (max_redirects : Nat) (body : Option Bytes)
    (responses : List Response) : Except Error (Option (Nat × Response)) :=
  runResponses ((StateMachine.new req max_redirects).set_body body) responses

/-! ### The body buffer (`src/buffer.rs`)

`Buffer::poll` loops over `poll_data`: a chunk extends the private
buffer, an error is returned as-is, end-of-stream freezes and returns
the accumulated bytes.  The stream is modelled as the finite list of
items it yields before ending (`Pending` suspensions are invisible to
the result). -/

/-- The accumulation loop of `Buffer::poll`, with the private buffer
`buf` explicit. -/
def bufferLoop (buf : Bytes) : List (Except String Bytes) → Except String Bytes
  | [] => .ok buf
  | .ok chunk :: rest => bufferLoop (buf ++ chunk) rest
  | .error e :: _ => .error e

/-- `Buffer::poll` run to completion on a stream that yields the given
items and then ends. -/
def bufferRun (items : List (Except String Bytes)) : Except String Bytes :=
  bufferLoop [] items

/-! ### Well-formed absolute URIs and claim-level predicates -/

/-- Well-formedness of a scheme component. -/
def schemeOk (s : List Char) : Bool :=
  !s.isEmpty && s.all (fun c => !(c == ' ' || schemeBadChar c))

/-- Well-formedness of an authority component. -/
def authorityOk (a : List Char) : Bool :=
  !a.isEmpty && a.all (fun c => !(c == ' ' || authorityEndChar c))

/-- Well-formedness of a path-and-query component. -/
def pathQueryOk (p : List Char) : Bool :=
  (match p with | '/' :: _ => true | _ => false) && p.all (fun c => !(c == ' '))

/-- A full, well-formed absolute URI: all three components are present
and syntactically clean. -/
def fullWf : UriParts → Bool
  | ⟨some s, some a, some p⟩ =>
    schemeOk s.data && authorityOk a.data && pathQueryOk p.data
  | _ => false

/-- A redirect-status response carrying a `Location` header whose
value is a full, well-formed absolute URI. -/
def validRedirectFull (r : Response) : Bool :=
  r.status.isRedirect &&
    (match r.headers.getLocation with
     | some loc =>
       (match parseUri loc with | some u => fullWf u | none => false)
     | none => false)

/-- The spec's textual `resolve`: parse the current URI, apply
`compute_redirect` to the location value, serialize the result
(`none` when the current URI itself does not parse). -/
def resolveStr (current location : String) : Option (Except Error String) :=
  (parseUri current).map (fun u => (compute_redirect u location).map UriParts.toStr)

/-! ### Claim-specific concrete inputs -/

/-- In-flight state for the C1 failing input: GET at `http://a.com/`
with all four sensitive headers present and budget 5. -/
def c1State : StateMachine :=
  ⟨.GET, "http://a.com/", .Http11,
   ⟨[("Authorization", "secret"), ("Cookie", "k=v"), ("Cookie2", "c2"),
     ("WWW-Authenticate", "Basic")]⟩,
   none, 5⟩

/-- C1 failing input response: `301` redirecting to another host. -/
def c1Response : Response :=
  ⟨.MovedPermanently, ⟨[("Location", "http://b.com/x")]⟩⟩

/-- The state the machine actually reaches on the C1 input. -/
def c1Next : StateMachine :=
  { c1State with uri := "http://b.com/x", remaining_redirects := 4 }

/-- In-flight state for the C4 failing input. -/
def c4State : StateMachine :=
  ⟨.GET, "http://example.org/", .Http11, ⟨[]⟩, none, 5⟩

/-- C4 failing input response: `301` with a malformed `Location`. -/
def c4Response : Response :=
  ⟨.MovedPermanently, ⟨[("Location", "http://exa mple.org/")]⟩⟩

/-- In-flight state for the C5 counterexample. -/
def c5State : StateMachine :=
  ⟨.GET, "http://a.com/", .Http11, ⟨[]⟩, none, 5⟩

/-- C5 counterexample response: redirect status, no `Location`. -/
def c5Response : Response := ⟨.MovedPermanently, ⟨[]⟩⟩

/-! ### Structural lemmas about `follow_redirect` and `handle_response` -/

/-- Case analysis of every successful outcome of `follow_redirect`:
method, body, headers and version are never touched; a `Continue`
decision implies the budget was nonzero and was decremented; a zero
budget returns the state unchanged with `Return`; a nonzero budget
with no `Location` header returns the decremented state with `Return`;
and any successful outcome under a nonzero budget has decremented the
budget exactly once. -/
theorem follow_redirect_ok (st : StateMachine) (res : Response)
    (st' : StateMachine) (d : StateMachineDecision)
    (h : st.follow_redirect res = .ok (st', d)) :
    st'.method = st.method ∧ st'.body = st.body ∧ st'.headers = st.headers ∧
      st'.version = st.version ∧
      (d = .Continue →
        st.remaining_redirects ≠ 0 ∧
          st'.remaining_redirects + 1 = st.remaining_redirects) ∧
      (st.remaining_redirects = 0 → st' = st ∧ d = .Return) ∧
      (st.remaining_redirects ≠ 0 → res.headers.getLocation = none →
        st' = { st with remaining_redirects := st.remaining_redirects - 1 } ∧
          d = .Return) ∧
      (st.remaining_redirects ≠ 0 →
        st'.remaining_redirects + 1 = st.remaining_redirects) := by
  by_cases hz : st.remaining_redirects = 0
  · simp only [StateMachine.follow_redirect, hz, if_true, if_pos] at h
    simp only [Except.ok.injEq, Prod.mk.injEq] at h
    obtain ⟨h1, h2⟩ := h
    subst h1; subst h2
    refine ⟨rfl, rfl, rfl, rfl, ?_, ?_, ?_, ?_⟩
    · intro hd; exact nomatch hd
    · intro _; exact ⟨rfl, rfl⟩
    · intro hc _; exact absurd hz hc
    · intro hc; exact absurd hz hc
  · simp only [StateMachine.follow_redirect, hz, if_false, if_neg hz] at h
    cases hloc : res.headers.getLocation with
    | none =>
      rw [hloc] at h
      simp only [Except.ok.injEq, Prod.mk.injEq] at h
      obtain ⟨h1, h2⟩ := h
      subst h1; subst h2
      refine ⟨rfl, rfl, rfl, rfl, ?_, ?_, ?_, ?_⟩
      · intro hd; exact nomatch hd
      · intro hc; exact absurd hc hz
      · intro _ _; exact ⟨rfl, rfl⟩
      · intro _; simp only []; omega
    | some loc =>
      rw [hloc] at h
      cases hpl : parseUri loc with
      | none => simp only [hpl] at h; exact Except.noConfusion h
      | some nu =>
        simp only [hpl] at h
        cases hpo : parseUri st.uri with
        | none => simp only [hpo] at h; exact Except.noConfusion h
        | some ou =>
          simp only [hpo] at h
          cases hfp : uriFromParts
              { scheme := if nu.scheme.isNone then ou.scheme else nu.scheme
                authority := if nu.authority.isNone then ou.authority else nu.authority
                pathAndQuery := nu.pathAndQuery } with
          | none => simp only [hfp] at h; exact Except.noConfusion h
          | some av =>
            simp only [hfp] at h
            cases hra : parseUri av.toStr with
            | none => simp only [hra] at h; exact Except.noConfusion h
            | some _ =>
              simp only [hra, Except.ok.injEq, Prod.mk.injEq] at h
              obtain ⟨h1, h2⟩ := h
              subst h2
              refine ⟨?_, ?_, ?_, ?_, ?_, ?_, ?_, ?_⟩
              · rw [← h1]
              · rw [← h1]
              · rw [← h1]
              · rw [← h1]
              · intro _
                refine ⟨hz, ?_⟩
                rw [← h1]
                simp only []
                omega
              · intro hc; exact absurd hc hz
              · intro _ hn; exact nomatch hn
              · intro _; rw [← h1]; simp only []; omega

/-- On the four non-303 redirect statuses `handle_response` is exactly
`follow_redirect`. -/
theorem handle_response_eq_follow (st : StateMachine) (res : Response)
    (hred : res.status.isRedirect = true) (hso : res.status ≠ .SeeOther) :
    st.handle_response res = st.follow_redirect res := by
  cases hst : res.status with
  | MovedPermanently => rw [StateMachine.handle_response, hst]
  | PermanentRedirect => rw [StateMachine.handle_response, hst]
  | Found => rw [StateMachine.handle_response, hst]
  | TemporaryRedirect => rw [StateMachine.handle_response, hst]
  | SeeOther => exact absurd hst hso
  | Other code => rw [hst] at hred; exact nomatch hred

/-- On `303 See Other`, `handle_response` first forces `method = GET`
and drops the body, then runs `follow_redirect`. -/
theorem handle_response_seeother (st : StateMachine) (res : Response)
    (hso : res.status = .SeeOther) :
    st.handle_response res =
      StateMachine.follow_redirect { st with method := .GET, body := none } res := by
  rw [StateMachine.handle_response, hso]

/-- A non-redirect status is returned to the caller with the state
untouched. -/
theorem handle_response_nonredirect (st : StateMachine) (res : Response)
    (hred : res.status.isRedirect = false) :
    st.handle_response res = .ok (st, .Return) := by
  cases hst : res.status with
  | Other code => rw [StateMachine.handle_response, hst]
  | MovedPermanently => rw [hst] at hred; exact nomatch hred
  | PermanentRedirect => rw [hst] at hred; exact nomatch hred
  | Found => rw [hst] at hred; exact nomatch hred
  | TemporaryRedirect => rw [hst] at hred; exact nomatch hred
  | SeeOther => rw [hst] at hred; exact nomatch hred

/-- Case analysis of every successful outcome of `handle_response`. -/
theorem handle_response_ok (st : StateMachine) (res : Response)
    (st' : StateMachine) (d : StateMachineDecision)
    (h : st.handle_response res = .ok (st', d)) :
    st'.headers = st.headers ∧ st'.version = st.version ∧
      (d = .Continue →
        st.remaining_redirects ≠ 0 ∧
          st'.remaining_redirects + 1 = st.remaining_redirects) ∧
      (res.status.isRedirect = false → st' = st ∧ d = .Return) ∧
      (res.status.isRedirect = true → st.remaining_redirects = 0 →
        d = .Return) ∧
      (res.status.isRedirect = true → st.remaining_redirects ≠ 0 →
        res.headers.getLocation = none → d = .Return) ∧
      (res.status = .SeeOther → st'.method = .GET ∧ st'.body = none) ∧
      (res.status ≠ .SeeOther → st'.method = st.method ∧ st'.body = st.body) ∧
      (res.status.isRedirect = true → st.remaining_redirects ≠ 0 →
        st'.remaining_redirects + 1 = st.remaining_redirects) ∧
      (res.status.isRedirect = true → st.remaining_redirects = 0 →
        st'.remaining_redirects = st.remaining_redirects) := by
  by_cases hred : res.status.isRedirect = true
  · by_cases hso : res.status = .SeeOther
    · rw [handle_response_seeother st res hso] at h
      obtain ⟨hm, hb, hh, hv, hcont, hzero, hnone, hdec⟩ :=
        follow_redirect_ok { st with method := .GET, body := none } res st' d h
      refine ⟨hh, hv, hcont, ?_, ?_, ?_, fun _ => ⟨hm, hb⟩,
        fun hs => absurd hso hs, ?_, ?_⟩
      · intro hf; rw [hred] at hf; exact nomatch hf
      · intro _ hz; exact (hzero hz).2
      · intro _ hz hn; exact (hnone hz hn).2
      · intro _ hz; exact hdec hz
      · intro _ hz; rw [(hzero hz).1]
    · rw [handle_response_eq_follow st res hred hso] at h
      obtain ⟨hm, hb, hh, hv, hcont, hzero, hnone, hdec⟩ :=
        follow_redirect_ok st res st' d h
      refine ⟨hh, hv, hcont, ?_, ?_, ?_, fun hs => absurd hs hso,
        fun _ => ⟨hm, hb⟩, ?_, ?_⟩
      · intro hf; rw [hred] at hf; exact nomatch hf
      · intro _ hz; exact (hzero hz).2
      · intro _ hz hn; exact (hnone hz hn).2
      · intro _ hz; exact hdec hz
      · intro _ hz; rw [(hzero hz).1]
  · rw [Bool.not_eq_true] at hred
    rw [handle_response_nonredirect st res hred] at h
    simp only [Except.ok.injEq, Prod.mk.injEq] at h
    obtain ⟨h1, h2⟩ := h
    subst h1; subst h2
    have hso : res.status ≠ .SeeOther := by
      intro hs; rw [hs] at hred; exact nomatch hred
    refine ⟨rfl, rfl, ?_, fun _ => ⟨rfl, rfl⟩, ?_, ?_, fun hs => absurd hs hso,
      fun _ => ⟨rfl, rfl⟩, ?_, ?_⟩
    · intro hd; exact nomatch hd
    · intro hr; rw [hr] at hred; exact nomatch hred
    · intro hr; rw [hr] at hred; exact nomatch hred
    · intro hr; rw [hr] at hred; exact nomatch hred
    · intro hr; rw [hr] at hred; exact nomatch hred

theorem runResponses_return (st : StateMachine) (r : Response)
    (rs : List Response) (st' : StateMachine)
    (hh : st.handle_response r = .ok (st', .Return)) :
    runResponses st (r :: rs) = .ok (some (1, r)) := by
  simp only [runResponses, hh]

theorem runResponses_le (rs : List Response) : ∀ (st : StateMachine)
    (n : Nat) (fin : Response),
    runResponses st rs = .ok (some (n, fin)) →
    n ≤ st.remaining_redirects + 1 := by
  induction rs with
  | nil =>
    intro st n fin h
    simp only [runResponses] at h
    exact nomatch h
  | cons r rs ih =>
    intro st n fin h
    cases hh : st.handle_response r with
    | error e =>
      simp only [runResponses, hh] at h
      exact Except.noConfusion h
    | ok pair =>
      obtain ⟨st', d⟩ := pair
      cases d with
      | Return =>
        simp only [runResponses, hh, Except.ok.injEq, Option.some.injEq,
          Prod.mk.injEq] at h
        omega
      | Continue =>
        simp only [runResponses, hh] at h
        cases hrun : runResponses st' rs with
        | error e => rw [hrun] at h; exact Except.noConfusion h
        | ok o =>
          cases o with
          | none =>
            rw [hrun] at h
            simp only [Except.ok.injEq] at h
            exact nomatch h
          | some p =>
            obtain ⟨m, fin'⟩ := p
            rw [hrun] at h
            simp only [Except.ok.injEq, Option.some.injEq, Prod.mk.injEq] at h
            obtain ⟨hn, _⟩ := h
            have hle := ih st' m fin' hrun
            have hc :=
              ((handle_response_ok st r st' .Continue hh).2.2.1) rfl
            omega
/-! ### String and parser lemmas -/

theorem string_data_append (s t : String) : (s ++ t).data = s.data ++ t.data := by
  cases s; cases t; rfl

theorem string_mk_data (s : String) : String.mk s.data = s := by
  cases s; rfl

theorem splitAtSchemeSep_append (l rest : List Char)
    (h : ∀ c ∈ l, ¬ c = ':') :
    splitAtSchemeSep (l ++ ':' :: '/' :: '/' :: rest) = some (l, rest) := by
  induction l with
  | nil =>
    simp [splitAtSchemeSep]
  | cons c l ih =>
    simp only [List.cons_append, splitAtSchemeSep]
    rw [if_neg (fun hc => h c (List.mem_cons_self c l) hc.1)]
    rw [List.append_eq, ih (fun x hx => h x (List.mem_cons_of_mem c hx))]

theorem takeWhile_append_all (p : Char → Bool) (l1 l2 : List Char)
    (h : ∀ c ∈ l1, p c = true) :
    (l1 ++ l2).takeWhile p = l1 ++ l2.takeWhile p := by
  induction l1 with
  | nil => simp
  | cons c l ih =>
    simp [List.takeWhile_cons, h c (List.mem_cons_self c l),
      ih (fun x hx => h x (List.mem_cons_of_mem c hx))]

theorem dropWhile_append_all (p : Char → Bool) (l1 l2 : List Char)
    (h : ∀ c ∈ l1, p c = true) :
    (l1 ++ l2).dropWhile p = l2.dropWhile p := by
  induction l1 with
  | nil => simp
  | cons c l ih =>
    simp [List.dropWhile_cons, h c (List.mem_cons_self c l),
      ih (fun x hx => h x (List.mem_cons_of_mem c hx))]

theorem parse_toStr (u : UriParts) (h : fullWf u = true) :
    parseUri u.toStr = some u := by
  obtain ⟨os, oa, op⟩ := u
  cases os with
  | none => exact nomatch h
  | some s =>
  cases oa with
  | none => exact nomatch h
  | some a =>
  cases op with
  | none => exact nomatch h
  | some p =>
  simp only [fullWf, Bool.and_eq_true, schemeOk, authorityOk, pathQueryOk] at h
  obtain ⟨⟨⟨hs1, hs2⟩, ha1, ha2⟩, hp1, hp2⟩ := h
  rw [List.all_eq_true] at hs2 ha2 hp2
  rw [Bool.not_eq_true'] at hs1 ha1
  obtain ⟨ptl, hpeq⟩ : ∃ tl, p.data = '/' :: tl := by
    cases hpd : p.data with
    | nil => rw [hpd] at hp1; exact nomatch hp1
    | cons c tl =>
      by_cases hc : c = '/'
      · exact ⟨tl, by rw [hc]⟩
      · rw [hpd] at hp1; simp [hc] at hp1
  have hdata : (UriParts.toStr ⟨some s, some a, some p⟩).data
      = s.data ++ ':' :: '/' :: '/' :: (a.data ++ p.data) := by
    simp only [UriParts.toStr]
    rw [string_data_append, string_data_append, string_data_append]
    rw [List.append_assoc, List.append_assoc]
    rfl
  have hcolon : ∀ c ∈ s.data, ¬ c = ':' := by
    intro c hc hcc
    have := hs2 c hc
    rw [hcc] at this
    exact nomatch this
  have hnosp : ∀ c ∈ s.data ++ ':' :: '/' :: '/' :: (a.data ++ p.data),
      ¬ c = ' ' := by
    intro c hc hcc
    subst hcc
    simp only [List.mem_append, List.mem_cons] at hc
    rcases hc with hin | h1 | h1 | h1 | hin | hin
    · simpa using hs2 _ hin
    · exact absurd h1 (by decide)
    · exact absurd h1 (by decide)
    · exact absurd h1 (by decide)
    · simpa using ha2 _ hin
    · simpa using hp2 _ hin
  have hany : (s.data ++ ':' :: '/' :: '/' :: (a.data ++ p.data)).any
      (fun c => c == ' ') = false := by
    rw [← Bool.not_eq_true, List.any_eq_true]
    rintro ⟨c, hc, hcc⟩
    exact hnosp c hc (by simpa using hcc)
  have hnonnil : (s.data ++ ':' :: '/' :: '/' :: (a.data ++ p.data)).isEmpty
      = false := by
    cases hsd : s.data <;> rfl
  have hsplit := splitAtSchemeSep_append s.data (a.data ++ p.data) hcolon
  rw [parseUri, hdata]
  simp only [parseUriChars, hnonnil, hany, hsplit, Bool.false_eq_true, if_false]
  simp only [parseWithScheme, hs1, Bool.false_eq_true, if_false]
  have hsbad : s.data.any schemeBadChar = false := by
    rw [← Bool.not_eq_true, List.any_eq_true]
    rintro ⟨c, hc, hcc⟩
    have := hs2 c hc
    rw [Bool.not_eq_true', Bool.or_eq_false_iff] at this
    rw [this.2] at hcc
    exact nomatch hcc
  rw [hsbad]
  simp only [Bool.false_eq_true, if_false]
  have hauthall : ∀ c ∈ a.data, (fun c => !authorityEndChar c) c = true := by
    intro c hc
    have := ha2 c hc
    rw [Bool.not_eq_true', Bool.or_eq_false_iff] at this
    simp [this.2]
  have hslash : (!authorityEndChar '/') = false := by decide
  rw [takeWhile_append_all _ a.data p.data hauthall,
    dropWhile_append_all _ a.data p.data hauthall, hpeq,
    List.takeWhile_cons, List.dropWhile_cons, hslash]
  simp only [Bool.false_eq_true, if_false, List.append_nil, ha1,
    List.isEmpty_cons]
  rw [string_mk_data, string_mk_data, ← hpeq, string_mk_data]

/-- `follow_redirect` with a zero budget returns the state unchanged. -/
theorem follow_redirect_budget_zero (st : StateMachine) (res : Response)
    (hz : st.remaining_redirects = 0) :
    st.follow_redirect res = .ok (st, .Return) := by
  simp [StateMachine.follow_redirect, hz]

/-- `follow_redirect` with a nonzero budget but no `Location` header
consumes one unit of budget and returns. -/
theorem follow_redirect_no_location (st : StateMachine) (res : Response)
    (hz : st.remaining_redirects ≠ 0)
    (hloc : res.headers.getLocation = none) :
    st.follow_redirect res =
      .ok ({ st with remaining_redirects := st.remaining_redirects - 1 },
        .Return) := by
  simp [StateMachine.follow_redirect, hz, hloc]

/-- Any redirect-status response without a `Location` header yields a
successful `Return` decision from `handle_response`. -/
theorem handle_response_no_location (st : StateMachine) (res : Response)
    (hred : res.status.isRedirect = true)
    (hloc : res.headers.getLocation = none) :
    ∃ st', st.handle_response res = .ok (st', .Return) := by
  by_cases hso : res.status = .SeeOther
  · rw [handle_response_seeother st res hso]
    by_cases hz : ({ st with method := .GET, body := none } : StateMachine).remaining_redirects = 0
    · exact ⟨_, follow_redirect_budget_zero _ res hz⟩
    · exact ⟨_, follow_redirect_no_location _ res hz hloc⟩
  · rw [handle_response_eq_follow st res hred hso]
    by_cases hz : st.remaining_redirects = 0
    · exact ⟨_, follow_redirect_budget_zero st res hz⟩
    · exact ⟨_, follow_redirect_no_location st res hz hloc⟩

/-- Any redirect-status response arriving with an exhausted budget
yields a successful `Return` decision from `handle_response`. -/
theorem handle_response_budget_zero (st : StateMachine) (res : Response)
    (hz : st.remaining_redirects = 0)
    (hred : res.status.isRedirect = true) :
    ∃ st', st.handle_response res = .ok (st', .Return) := by
  by_cases hso : res.status = .SeeOther
  · rw [handle_response_seeother st res hso]
    exact ⟨_, follow_redirect_budget_zero _ res hz⟩
  · rw [handle_response_eq_follow st res hred hso]
    exact ⟨_, follow_redirect_budget_zero st res hz⟩

/-- `Uri::from_parts` returns its input when it succeeds. -/
theorem uriFromParts_some (p q : UriParts) (h : uriFromParts p = some q) :
    q = p := by
  unfold uriFromParts at h
  split at h
  · split at h
    · exact Option.noConfusion h
    · split at h
      · exact Option.noConfusion h
      · exact (Option.some.inj h).symm
  · exact (Option.some.inj h).symm

/-- Unpacking `validRedirectFull`. -/
theorem validRedirectFull_spec (r : Response)
    (h : validRedirectFull r = true) :
    r.status.isRedirect = true ∧
      ∃ loc u, r.headers.getLocation = some loc ∧ parseUri loc = some u ∧
        fullWf u = true := by
  simp only [validRedirectFull, Bool.and_eq_true] at h
  obtain ⟨h1, h2⟩ := h
  refine ⟨h1, ?_⟩
  cases hl : r.headers.getLocation with
  | none => simp only [hl] at h2; exact nomatch h2
  | some loc =>
    simp only [hl] at h2
    cases hp : parseUri loc with
    | none => simp only [hp] at h2; exact nomatch h2
    | some u => simp only [hp] at h2; exact ⟨loc, u, rfl, hp, h2⟩

theorem fullWf_shape (u : UriParts) (h : fullWf u = true) :
    ∃ s a p, u = ⟨some s, some a, some p⟩ := by
  obtain ⟨os, oa, op⟩ := u
  cases os with
  | none => exact nomatch h
  | some s =>
  cases oa with
  | none => exact nomatch h
  | some a =>
  cases op with
  | none => exact nomatch h
  | some p => exact ⟨s, a, p, rfl⟩

/-- `follow_redirect` on a nonzero budget, a parseable current URI and
a `Location` carrying a full well-formed absolute URI: the budget is
decremented, the URI replaced, and the decision is `Continue`. -/
theorem follow_redirect_valid_continue (st : StateMachine) (res : Response)
    (hz : st.remaining_redirects ≠ 0)
    (hou : (parseUri st.uri).isSome = true)
    (loc : String) (u : UriParts)
    (hloc : res.headers.getLocation = some loc)
    (hpl : parseUri loc = some u)
    (hwf : fullWf u = true) :
    st.follow_redirect res =
      .ok ({ st with
               uri := u.toStr
               remaining_redirects := st.remaining_redirects - 1 },
        .Continue) := by
  obtain ⟨ou, hou'⟩ := Option.isSome_iff_exists.mp hou
  obtain ⟨s, a, p, rfl⟩ := fullWf_shape u hwf
  have hfp : uriFromParts ⟨some s, some a, some p⟩ =
      some ⟨some s, some a, some p⟩ := rfl
  simp [StateMachine.follow_redirect, hz, hloc, hpl, hou', hfp,
    parse_toStr _ hwf]

/-- `handle_response` on a nonzero budget, parseable current URI and a
valid full-URI redirect response always continues, with the budget
decremented and the stored URI again parseable. -/
theorem handle_response_valid (st : StateMachine) (res : Response)
    (hz : st.remaining_redirects ≠ 0)
    (hou : (parseUri st.uri).isSome = true)
    (hval : validRedirectFull res = true) :
    ∃ st', st.handle_response res = .ok (st', .Continue) ∧
      st'.remaining_redirects = st.remaining_redirects - 1 ∧
      (parseUri st'.uri).isSome = true := by
  obtain ⟨hred, loc, u, hloc, hpl, hwf⟩ := validRedirectFull_spec res hval
  by_cases hso : res.status = .SeeOther
  · rw [handle_response_seeother st res hso,
      follow_redirect_valid_continue { st with method := .GET, body := none }
        res hz hou loc u hloc hpl hwf]
    exact ⟨_, rfl, rfl, by rw [parse_toStr u hwf]; rfl⟩
  · rw [handle_response_eq_follow st res hred hso,
      follow_redirect_valid_continue st res hz hou loc u hloc hpl hwf]
    exact ⟨_, rfl, rfl, by rw [parse_toStr u hwf]; rfl⟩

/-- With a budget of `m`, a chain of `m + 1` valid full-URI redirect
responses is driven to exactly `m + 1` sends. -/
theorem runResponses_exact (m : Nat) : ∀ (st : StateMachine)
    (rs : List Response),
    st.remaining_redirects = m →
    (parseUri st.uri).isSome = true →
    rs.length = m + 1 →
    (∀ r ∈ rs, validRedirectFull r = true) →
    ∃ fin, runResponses st rs = .ok (some (m + 1, fin)) := by
  induction m with
  | zero =>
    intro st rs hm hu hlen hall
    obtain ⟨r, rs', rfl⟩ : ∃ r rs', rs = r :: rs' := by
      cases rs with
      | nil => exact nomatch hlen
      | cons r rs' => exact ⟨r, rs', rfl⟩
    obtain rfl : rs' = [] := by
      cases rs' with
      | nil => rfl
      | cons x xs => simp at hlen
    have hred := (validRedirectFull_spec r
      (hall r (List.mem_cons_self r []))).1
    obtain ⟨st', h⟩ := handle_response_budget_zero st r hm hred
    exact ⟨r, runResponses_return st r [] st' h⟩
  | succ k ih =>
    intro st rs hm hu hlen hall
    obtain ⟨r, rs', rfl⟩ : ∃ r rs', rs = r :: rs' := by
      cases rs with
      | nil => exact nomatch hlen
      | cons r rs' => exact ⟨r, rs', rfl⟩
    have hz : st.remaining_redirects ≠ 0 := by omega
    obtain ⟨st', hcont, hrem, hu'⟩ :=
      handle_response_valid st r hz hu (hall r (List.mem_cons_self r rs'))
    obtain ⟨fin, hrun⟩ := ih st' rs' (by omega) hu'
      (by simpa using hlen)
      (fun x hx => hall x (List.mem_cons_of_mem r hx))
    refine ⟨fin, ?_⟩
    simp only [runResponses, hcont, hrun]

/-! ### The claims -/

/-- C1: the spec (and the crate's own `lib.rs` documentation) requires
`Authorization`/`Cookie`/`Cookie2`/`WWW-Authenticate` to be stripped
when a followed redirect changes host or port.  The code does not:
`follow_redirect` never touches `headers` (and never calls
`is_same_host`), so on a cross-host `301` all four sensitive headers
survive into the next materialized request. -/
theorem c1_sensitive_headers_not_stripped :
    c1State.handle_response c1Response = .ok (c1Next, .Continue) ∧
    (∃ u1 u2, parseUri c1State.uri = some u1 ∧ parseUri c1Next.uri = some u2 ∧
      is_same_host u1 u2 = false) ∧
    c1Next.create_request.headers.contains "Authorization" = true ∧
    c1Next.create_request.headers.contains "Cookie" = true ∧
    c1Next.create_request.headers.contains "Cookie2" = true ∧
    c1Next.create_request.headers.contains "WWW-Authenticate" = true ∧
    c1Next.headers = c1State.headers := by
  refine ⟨by decide,
    ⟨⟨some "http", some "a.com", some "/"⟩,
     ⟨some "http", some "b.com", some "/x"⟩, by decide, by decide, by decide⟩,
    by decide, by decide, by decide, by decide, by decide⟩

/-- C2: a `303 See Other` response forces `method = GET` and
`body = None`, so the next materialized request (if any) is a GET with
an empty body — for every state and buffered body. -/
theorem c2_seeother_forces_get (st : StateMachine) (res : Response)
    (st' : StateMachine) (d : StateMachineDecision)
    (hso : res.status = .SeeOther)
    (h : st.handle_response res = .ok (st', d)) :
    st'.method = .GET ∧ st'.body = none ∧
      st'.create_request.method = .GET ∧ st'.create_request.body = [] := by
  obtain ⟨-, -, -, -, -, -, hseeother, -, -, -⟩ :=
    handle_response_ok st res st' d h
  obtain ⟨hm, hb⟩ := hseeother hso
  exact ⟨hm, hb, by simp [StateMachine.create_request, hm],
    by simp [StateMachine.create_request, hb]⟩

/-- C2 witness: a concrete POST with a buffered body receiving a 303. -/
theorem c2_seeother_forces_get_witness :
    (⟨.GET, "http://a.com/next", .Http11, ⟨[]⟩, none, 2⟩ : StateMachine).method
        = .GET ∧
      (⟨.GET, "http://a.com/next", .Http11, ⟨[]⟩, none, 2⟩ : StateMachine).body
        = none ∧
      (⟨.GET, "http://a.com/next", .Http11, ⟨[]⟩, none,
          2⟩ : StateMachine).create_request.method = .GET ∧
      (⟨.GET, "http://a.com/next", .Http11, ⟨[]⟩, none,
          2⟩ : StateMachine).create_request.body = [] :=
  c2_seeother_forces_get
    ⟨.POST, "http://a.com/", .Http11, ⟨[]⟩, some [7], 3⟩
    ⟨.SeeOther, ⟨[("Location", "/next")]⟩⟩
    ⟨.GET, "http://a.com/next", .Http11, ⟨[]⟩, none, 2⟩
    .Continue rfl (by decide)

/-- C3: over any oracle chain of responses the orchestrator performs at
most `max_redirects + 1` sends, and performs exactly
`max_redirects + 1` sends when every response in the chain is a
redirect status carrying a valid (full, well-formed absolute URI)
`Location` header and the chain is long enough to observe it. -/
theorem c3_send_bound :
    (∀ (req : Request) (max_redirects : Nat) (body : Option Bytes)
        (rs : List Response) (n : Nat) (fin : Response),
      runExchange req max_redirects body rs = .ok (some (n, fin)) →
      n ≤ max_redirects + 1) ∧
    (∀ (req : Request) (max_redirects : Nat) (body : Option Bytes)
        (rs : List Response),
      (parseUri req.uri).isSome = true →
      rs.length = max_redirects + 1 →
      (∀ r ∈ rs, validRedirectFull r = true) →
      ∃ fin, runExchange req max_redirects body rs =
        .ok (some (max_redirects + 1, fin))) := by
  constructor
  · intro req mx body rs n fin h
    exact runResponses_le rs _ n fin h
  · intro req mx body rs hu hlen hall
    exact runResponses_exact mx _ rs rfl hu hlen hall

/-- C3 witness: budget 1 and two valid redirect responses give exactly
two sends. -/
theorem c3_send_bound_witness :
    ∃ fin, runExchange ⟨.GET, "http://a.com/", .Http11, ⟨[]⟩, []⟩ 1 none
        [⟨.Found, ⟨[("Location", "http://b.com/p")]⟩⟩,
         ⟨.Found, ⟨[("Location", "http://d.com/q")]⟩⟩] =
      .ok (some (2, fin)) :=
  c3_send_bound.2 ⟨.GET, "http://a.com/", .Http11, ⟨[]⟩, []⟩ 1 none
    [⟨.Found, ⟨[("Location", "http://b.com/p")]⟩⟩,
     ⟨.Found, ⟨[("Location", "http://d.com/q")]⟩⟩]
    (by decide) (by decide) (by decide)

/-- C4: on a malformed `Location`, the whole exchange terminates with
an error (never a silently returned response) — but the error the code
produces is a wrapped `http::Uri` parse error surfaced as
`Error::Hyper`, not the `InvalidLocationHeader` error carrying the raw
text that `src/uri.rs`/`src/error.rs` define for this purpose (that
path is dead code: `follow_redirect` re-implements resolution inline). -/
theorem c4_invalid_location_error :
    runResponses c4State [c4Response] =
      .error (.Hyper (.io "http://exa mple.org/")) ∧
    runResponses c4State [c4Response] ≠
      .error (.InvalidLocationHeader "http://exa mple.org/") := by
  refine ⟨by decide, by decide⟩

/-- C5 counterexample: a `301` without a `Location` header is *not*
followed (decision `Return`), yet the budget is decremented from 5 to
4 — refuting "a redirect-status response that is not followed does not
consume budget". -/
theorem c5_counterexample :
    c5Response.status.isRedirect = true ∧
    c5State.handle_response c5Response =
      .ok ({ c5State with remaining_redirects := 4 }, .Return) ∧
    ({ c5State with remaining_redirects := 4 }).remaining_redirects ≠
      c5State.remaining_redirects := by
  refine ⟨by decide, by decide, by decide⟩

/-- C5 (amended): `remaining_redirects` never increases; it is
decremented exactly once whenever a redirect-status response is
handled with a nonzero budget — including when the redirect is not
followed because the `Location` header is missing — and it is left
unchanged by non-redirect responses, by redirect responses arriving
with an exhausted budget, and by `set_body`. -/
theorem c5_budget_monotone :
    (∀ (st : StateMachine) (res : Response) (st' : StateMachine)
        (d : StateMachineDecision),
      st.handle_response res = .ok (st', d) →
      st'.remaining_redirects ≤ st.remaining_redirects) ∧
    (∀ (st : StateMachine) (res : Response) (st' : StateMachine)
        (d : StateMachineDecision),
      st.handle_response res = .ok (st', d) →
      res.status.isRedirect = true → st.remaining_redirects ≠ 0 →
      st'.remaining_redirects + 1 = st.remaining_redirects) ∧
    (∀ (st : StateMachine) (res : Response) (st' : StateMachine)
        (d : StateMachineDecision),
      st.handle_response res = .ok (st', d) →
      res.status.isRedirect = false → st' = st) ∧
    (∀ (st : StateMachine) (res : Response) (st' : StateMachine)
        (d : StateMachineDecision),
      st.handle_response res = .ok (st', d) →
      res.status.isRedirect = true → st.remaining_redirects = 0 →
      st'.remaining_redirects = st.remaining_redirects) ∧
    (∀ (st : StateMachine) (b : Option Bytes),
      (st.set_body b).remaining_redirects = st.remaining_redirects) := by
  refine ⟨?_, ?_, ?_, ?_, fun st b => rfl⟩
  · intro st res st' d h
    obtain ⟨-, -, -, hnonred, -, -, -, -, hdec, hzero⟩ :=
      handle_response_ok st res st' d h
    by_cases hred : res.status.isRedirect = true
    · by_cases hz : st.remaining_redirects = 0
      · rw [hzero hred hz]
      · have := hdec hred hz; omega
    · rw [Bool.not_eq_true] at hred
      rw [(hnonred hred).1]
  · intro st res st' d h hred hz
    exact (handle_response_ok st res st' d h).2.2.2.2.2.2.2.2.1 hred hz
  · intro st res st' d h hred
    exact ((handle_response_ok st res st' d h).2.2.2.1 hred).1
  · intro st res st' d h hred hz
    exact (handle_response_ok st res st' d h).2.2.2.2.2.2.2.2.2 hred hz

/-- C5 (amended) witness: the no-`Location` 301 consumes exactly one
unit of budget even though it is not followed. -/
theorem c5_budget_monotone_witness :
    ({ c5State with remaining_redirects := 4 } : StateMachine).remaining_redirects
        + 1 = c5State.remaining_redirects :=
  c5_budget_monotone.2.1 c5State c5Response
    { c5State with remaining_redirects := 4 } .Return
    (by decide) (by decide) (by decide)

/-- C6: a redirect-status response without a `Location` header produces
the `Return` decision; the orchestrator hands that very response back
and performs no further send. -/
theorem c6_no_location_return (st : StateMachine) (res : Response)
    (rs : List Response)
    (hred : res.status.isRedirect = true)
    (hloc : res.headers.getLocation = none) :
    (∃ st', st.handle_response res = .ok (st', .Return)) ∧
      runResponses st (res :: rs) = .ok (some (1, res)) := by
  obtain ⟨st', h⟩ := handle_response_no_location st res hred hloc
  exact ⟨⟨st', h⟩, runResponses_return st res rs st' h⟩

/-- C6 witness: a concrete 302 without `Location`. -/
theorem c6_no_location_return_witness :
    (∃ st', StateMachine.handle_response
        ⟨.POST, "http://a.com/", .Http11, ⟨[]⟩, none, 7⟩
        ⟨.Found, ⟨[("Server", "x")]⟩⟩ = .ok (st', .Return)) ∧
      runResponses ⟨.POST, "http://a.com/", .Http11, ⟨[]⟩, none, 7⟩
        [⟨.Found, ⟨[("Server", "x")]⟩⟩,
         ⟨.Other 200, ⟨[]⟩⟩] =
      .ok (some (1, ⟨.Found, ⟨[("Server", "x")]⟩⟩)) :=
  c6_no_location_return ⟨.POST, "http://a.com/", .Http11, ⟨[]⟩, none, 7⟩
    ⟨.Found, ⟨[("Server", "x")]⟩⟩ [⟨.Other 200, ⟨[]⟩⟩]
    (by decide) (by decide)

/-- C7: with `remaining_redirects = 0`, any further redirect-status
response yields the `Return` decision; the response itself is handed
back successfully (no error) and no further send occurs. -/
theorem c7_budget_exhausted_return (st : StateMachine) (res : Response)
    (rs : List Response)
    (hz : st.remaining_redirects = 0)
    (hred : res.status.isRedirect = true) :
    (∃ st', st.handle_response res = .ok (st', .Return)) ∧
      runResponses st (res :: rs) = .ok (some (1, res)) := by
  obtain ⟨st', h⟩ := handle_response_budget_zero st res hz hred
  exact ⟨⟨st', h⟩, runResponses_return st res rs st' h⟩

/-- C7 witness: exhausted budget on a 308 that does carry a valid
`Location`. -/
theorem c7_budget_exhausted_return_witness :
    (∃ st', StateMachine.handle_response
        ⟨.GET, "http://a.com/", .Http11, ⟨[]⟩, none, 0⟩
        ⟨.PermanentRedirect, ⟨[("Location", "http://b.com/x")]⟩⟩ =
        .ok (st', .Return)) ∧
      runResponses ⟨.GET, "http://a.com/", .Http11, ⟨[]⟩, none, 0⟩
        [⟨.PermanentRedirect, ⟨[("Location", "http://b.com/x")]⟩⟩] =
      .ok (some (1, ⟨.PermanentRedirect, ⟨[("Location", "http://b.com/x")]⟩⟩)) :=
  c7_budget_exhausted_return ⟨.GET, "http://a.com/", .Http11, ⟨[]⟩, none, 0⟩
    ⟨.PermanentRedirect, ⟨[("Location", "http://b.com/x")]⟩⟩ []
    (by decide) (by decide)

/-- C8: `compute_redirect` parses the `Location` value as a URI
reference, inherits scheme and authority from the current URI exactly
when the parsed value lacks them, and takes path-and-query verbatim;
the three textual resolution examples hold. -/
theorem c8_resolution_inheritance :
    (∀ (old : UriParts) (loc : String) (u v : UriParts),
      parseUri loc = some u →
      compute_redirect old loc = .ok v →
      v.scheme = (if u.scheme.isNone then old.scheme else u.scheme) ∧
        v.authority =
          (if u.authority.isNone then old.authority else u.authority) ∧
        v.pathAndQuery = u.pathAndQuery) ∧
    resolveStr "http://a.com/p?q" "/x" = some (.ok "http://a.com/x") ∧
    resolveStr "http://a.com/p" "https://b.com/y" =
      some (.ok "https://b.com/y") ∧
    resolveStr "http://a.com:8080/p" "/y" =
      some (.ok "http://a.com:8080/y") := by
  refine ⟨?_, by decide, by decide, by decide⟩
  intro old loc u v hp hc
  simp only [compute_redirect, hp] at hc
  cases hf : uriFromParts
      { scheme := if u.scheme.isNone then old.scheme else u.scheme
        authority := if u.authority.isNone then old.authority else u.authority
        pathAndQuery := u.pathAndQuery } with
  | none => rw [hf] at hc; exact Except.noConfusion hc
  | some w =>
    rw [hf] at hc
    obtain rfl : w = v := Except.ok.inj hc
    have hw := uriFromParts_some _ _ hf
    rw [hw]
    exact ⟨rfl, rfl, rfl⟩

/-- C8 witness: the inheritance equations at a concrete resolution. -/
theorem c8_resolution_inheritance_witness :
    (⟨some "http", some "a.com", some "/x"⟩ : UriParts).scheme =
        (if (⟨none, none, some "/x"⟩ : UriParts).scheme.isNone
          then (⟨some "http", some "a.com", some "/p"⟩ : UriParts).scheme
          else (⟨none, none, some "/x"⟩ : UriParts).scheme) ∧
      (⟨some "http", some "a.com", some "/x"⟩ : UriParts).authority =
        (if (⟨none, none, some "/x"⟩ : UriParts).authority.isNone
          then (⟨some "http", some "a.com", some "/p"⟩ : UriParts).authority
          else (⟨none, none, some "/x"⟩ : UriParts).authority) ∧
      (⟨some "http", some "a.com", some "/x"⟩ : UriParts).pathAndQuery =
        (⟨none, none, some "/x"⟩ : UriParts).pathAndQuery :=
  c8_resolution_inheritance.1 ⟨some "http", some "a.com", some "/p"⟩ "/x"
    ⟨none, none, some "/x"⟩ ⟨some "http", some "a.com", some "/x"⟩
    (by decide) (by decide)

/-- C9: the body-buffering future resolves to the in-order
concatenation of all chunks when the stream ends normally (empty
included), and resolves to the stream's first error, unretried, as
soon as any chunk yields an error. -/
theorem c9_buffer_concat :
    (∀ chunks : List Bytes,
      bufferRun (chunks.map Except.ok) = .ok chunks.flatten) ∧
    (∀ (pre : List Bytes) (e : String) (rest : List (Except String Bytes)),
      bufferRun (pre.map Except.ok ++ .error e :: rest) = .error e) := by
  have hok : ∀ (chunks : List Bytes) (buf : Bytes),
      bufferLoop buf (chunks.map Except.ok) = .ok (buf ++ chunks.flatten) := by
    intro chunks
    induction chunks with
    | nil => intro buf; simp [bufferLoop]
    | cons c cs ih => intro buf; simp [bufferLoop, ih]
  have herr : ∀ (pre : List Bytes) (e : String)
      (rest : List (Except String Bytes)) (buf : Bytes),
      bufferLoop buf (pre.map Except.ok ++ .error e :: rest) = .error e := by
    intro pre e rest
    induction pre with
    | nil => intro buf; simp [bufferLoop]
    | cons c cs ih => intro buf; simp [bufferLoop, ih]
  constructor
  · intro chunks
    simpa [bufferRun] using hok chunks []
  · intro pre e rest
    simpa [bufferRun] using herr pre e rest []

/-- C10: `is_same_host` is literal equality of the host components and
of the port components, with no default-port normalisation: an
explicit `:80` is not the same host/port as an absent port. -/
theorem c10_same_host_literal :
    (∀ a b : UriParts,
      is_same_host a b = true ↔ (a.host = b.host ∧ a.port = b.port)) ∧
    (∃ u1 u2, parseUri "http://example.org:80/" = some u1 ∧
      parseUri "http://example.org/" = some u2 ∧
      u1.host = u2.host ∧ u1.port = some 80 ∧ u2.port = none ∧
      is_same_host u1 u2 = false) := by
  refine ⟨?_, ⟨⟨some "http", some "example.org:80", some "/"⟩,
    ⟨some "http", some "example.org", some "/"⟩,
    by decide, by decide, by decide, by decide, by decide, by decide⟩⟩
  intro a b
  simp [is_same_host, Bool.and_eq_true, beq_iff_eq]

end FollowRedirects
